import Mathlib

/-!
Verification of the Caroud backend (a 15×15 five-in-a-row game server).

This file shallowly embeds the Python source of the repository:
board and win detection (`backend/game/models.py`), the match finishing
logic and player statistics (`backend/game/models.py`,
`backend/users/models.py`), the forfeit and disconnect finish paths
(`backend/game/views.py`, `backend/game/consumers.py`), the matchmaking
queue (`backend/matchmaking/matchmaker.py`), the game-server pool
(`backend/game/server_pool.py`) and the AI engine (`backend/ai/engine.py`),
and proves or refutes the specification claims about them.

Conventions: Python `None`-able board cells become `Option Player`;
Python exceptions become `Except`/`Option String` error channels;
Python float arithmetic (only in the ELO formula) is modelled over `ℝ`
with `int()` truncation toward zero; `while` loops that walk along a
board axis are modelled by fuel-bounded recursion where the fuel
(the board size) strictly exceeds the number of iterations the loop can
perform, so the model and the loop agree on every input.
-/

namespace Caroud

/-- Cell symbols: in the source the strings `'X'` (black) and `'O'` (white). -/
inductive Player where
  | X : Player
  | O : Player
deriving DecidableEq, Repr

/-- A board cell: `None` (empty) or a player symbol, as in `board_state`. -/
abbrev Cell := Option Player

/-- The board: a list of rows of cells, as the JSON `board_state` in `Match`. -/
abbrev Board := List (List Cell)

/-- Match status values (`Match.STATUS_CHOICES`). -/
inductive MStatus where
  | waiting | in_progress | completed | abandoned
deriving DecidableEq, Repr

/-- Match modes (`Match.MODE_CHOICES`). -/
inductive Mode where
  | local | online | ai
deriving DecidableEq, Repr

/-- Match results (`Match.RESULT_CHOICES`, the non-null ones). -/
inductive GResult where
  | black_win | white_win | draw
deriving DecidableEq, Repr

/-- Per-player outcome strings passed to `update_elo` / `update_stats`. -/
inductive SResult where
  | win | loss | draw
deriving DecidableEq, Repr

/-- Board lookup at integer coordinates, out-of-range reads give `none`;
the embedding only reads through this after the source's own bounds test. -/
def cellAt (b : Board) (r c : Int) : Cell :=
  (b.getD r.toNat []).getD c.toNat none

/-- The guard of the walking loops in `Match.check_winner`:
`0 <= r < size and 0 <= c < size and board[r][c] == player`. -/
def cellB (b : Board) (size r c : Int) (p : Player) : Bool :=
  decide (0 ≤ r) && decide (r < size) && decide (0 ≤ c) && decide (c < size) &&
    (cellAt b r c == some p)

/-- One walking loop of `Match.check_winner`: starting at `(r, c)` it
collects consecutive coordinates while the guard holds, stepping by
`(dr, dc)`.  The fuel bounds the recursion; called with fuel = board size
it performs at least as many steps as the source loop ever can. -/
def collectDir (b : Board) (p : Player) (size : Int) (r c dr dc : Int) :
    Nat → List (Int × Int)
  | 0 => []
  | fuel + 1 =>
    if cellB b size r c p then
      (r, c) :: collectDir b p size (r + dr) (c + dc) dr dc fuel
    else []

/-- The `line` list built by `Match.check_winner` for one direction pair
`[(dr, dc), (-dr, -dc)]`: the just-played cell, then the cells found in the
first direction, then the cells found in the opposite direction. -/
def lineThrough (b : Board) (row col : Int) (p : Player) (dr dc : Int) :
    List (Int × Int) :=
  let size : Int := b.length
  (row, col) ::
    (collectDir b p size (row + dr) (col + dc) dr dc b.length ++
     collectDir b p size (row - dr) (col - dc) (-dr) (-dc) b.length)

/-- `Match.check_winner`: tries the four direction pairs in source order
(horizontal, vertical, diagonal \, diagonal /) and returns the first
accumulated line of length ≥ 5, else `None`. -/
def check_winner (b : Board) (row col : Int) (p : Player) :
    Option (List (Int × Int)) :=
  if 5 ≤ (lineThrough b row col p 0 1).length then
    some (lineThrough b row col p 0 1)
  else if 5 ≤ (lineThrough b row col p 1 0).length then
    some (lineThrough b row col p 1 0)
  else if 5 ≤ (lineThrough b row col p 1 1).length then
    some (lineThrough b row col p 1 1)
  else if 5 ≤ (lineThrough b row col p 1 (-1)).length then
    some (lineThrough b row col p 1 (-1))
  else
    none

/-- A recorded move, as the dict appended to `move_history`. -/
structure MoveRec where
  row : Nat
  col : Nat
  player : Player
deriving DecidableEq, Repr

/-- The mutable per-match session state touched by `Match.make_move`. -/
structure MatchState where
  board : Board
  move_history : List MoveRec
  current_turn : Player
  status : MStatus
deriving DecidableEq, Repr

/-- Board write at row/column indices (Python `board[row][col] = player`). -/
def setCell (b : Board) (row col : Nat) (v : Cell) : Board :=
  b.set row ((b.getD row []).set col v)

/-- `Match.make_move`: the read `self.board_state[row][col]` raises
`IndexError` when the row or the column index is out of range (before
anything is mutated); on an in-range non-empty cell it raises
`ValueError("Cell already occupied")`; otherwise it writes the cell,
appends to the move history and flips `current_turn`.  The source checks
neither the session status nor whose turn it is.  Indices are modelled
as naturals (a negative Python index would read from the end of the
list; no caller in the repository produces one deliberately and the
claims quantify over grid coordinates). -/
def make_move (m : MatchState) (row col : Nat) (p : Player) :
    Except String MatchState :=
  if row < m.board.length then
    if col < (m.board.getD row []).length then
      if ((m.board.getD row []).getD col none).isSome then
        Except.error "Cell already occupied"
      else
        Except.ok
          { m with
            board := setCell m.board row col (some p)
            move_history := m.move_history ++ [⟨row, col, p⟩]
            current_turn := if p = Player.X then Player.O else Player.X }
    else
      Except.error "list index out of range"
  else
    Except.error "list index out of range"

/-- The empty 15×15 board produced by `Match.initialize_board`. -/
def emptyBoard : Board := List.replicate 15 (List.replicate 15 none)

/-! ### Users, ELO and match finishing
`backend/users/models.py` (`User.update_elo`, `User.update_stats`) and
`backend/game/models.py` (`Match.finish_game`), plus the two external
finish paths `GameViewSet.forfeit` (`backend/game/views.py`) and
`GameConsumer.finish_game_on_disconnect` (`backend/game/consumers.py`).

The ELO formula uses Python float arithmetic; it is modelled over `ℝ`
(the one inexactly-representable constant, `10 ** 0.04`-style powers, is
far from every truncation boundary used below, so the real-valued model
and float64 agree on every value this file computes). -/

/-- Python `int(x)` on a float: truncation toward zero. -/
noncomputable def pyInt (x : ℝ) : Int := if 0 ≤ x then ⌊x⌋ else ⌈x⌉

/-- The persistent per-user fields touched by `update_elo`/`update_stats`. -/
structure UserRec where
  uid : Nat
  elo_rating : Int
  wins : Int
  losses : Int
  draws : Int
  current_streak : Int
  best_streak : Int
deriving DecidableEq, Repr

/-- The `expected_score` local of `User.update_elo`:
`1 / (1 + 10 ** ((opponent_elo - self.elo_rating) / 400))`. -/
noncomputable def expected_score (self_elo opponent_elo : Int) : ℝ :=
  1 / (1 + (10 : ℝ) ^ (((opponent_elo - self_elo : Int) : ℝ) / 400))

/-- The `actual_score` local of `User.update_elo`: 1 for a win, 0 for a
loss, 0.5 otherwise. -/
noncomputable def actual_score (result : SResult) : ℝ :=
  match result with
  | SResult.win => 1
  | SResult.loss => 0
  | SResult.draw => 1 / 2

/-- The `elo_change` local of `User.update_elo`:
`int(settings.ELO_K_FACTOR * (actual_score - expected_score))` with the
settings default `ELO_K_FACTOR = 32`. -/
noncomputable def elo_delta (self_elo opponent_elo : Int) (result : SResult) : Int :=
  pyInt (32 * (actual_score result - expected_score self_elo opponent_elo))

/-- `User.update_elo(opponent_elo, result)`: adds `elo_change` to
`self.elo_rating`, saves, and returns `elo_change`.  Returns the updated
user together with the returned change. -/
noncomputable def update_elo (u : UserRec) (opponent_elo : Int) (result : SResult) :
    UserRec × Int :=
  ({ u with elo_rating :=
      u.elo_rating + elo_delta u.elo_rating opponent_elo result },
    elo_delta u.elo_rating opponent_elo result)

/-- `User.update_stats(result)`: increments the win/loss/draw counter and
always touches the streak counters (the function has no `update_streak`
parameter in the source). -/
def update_stats (u : UserRec) (result : SResult) : UserRec :=
  match result with
  | SResult.win =>
    { u with
      wins := u.wins + 1
      current_streak := u.current_streak + 1
      best_streak :=
        if u.best_streak < u.current_streak + 1 then u.current_streak + 1
        else u.best_streak }
  | SResult.loss => { u with losses := u.losses + 1, current_streak := 0 }
  | SResult.draw => { u with draws := u.draws + 1, current_streak := 0 }

/-- The error raised by every `update_stats(..., update_streak=...)` call in
`Match.finish_game`: `User.update_stats` takes no `update_streak` keyword
argument, so the Python call raises `TypeError` before mutating anything. -/
def typeErrorMsg : String :=
  "TypeError: update_stats got an unexpected keyword argument update_streak"

/-- The `Match` fields read and written by `finish_game`. -/
structure MatchRec where
  mode : Mode
  status : MStatus
  result : Option GResult
  black_elo_before : Option Int
  white_elo_before : Option Int
  black_elo_change : Option Int
  white_elo_change : Option Int
deriving DecidableEq, Repr

/-- A match together with its (optional) player records — the state
`finish_game` and the finish paths mutate. -/
structure SysState where
  m : MatchRec
  black_player : Option UserRec
  white_player : Option UserRec
deriving DecidableEq, Repr

/-- `Match.finish_game(result)`: sets status/result, snapshots the elo
fields, then for online matches runs `update_elo` for black first and
white second — the white call passes `self.black_player.elo_rating`
*after* black's update has already been applied and saved.  Every branch
that then calls `update_stats(..., update_streak=...)` raises `TypeError`
(see `typeErrorMsg`), so the stats counters are never touched and the
final `self.save()` is not reached; the user-rating writes have already
been saved inside `update_elo`.  Returns the state as mutated up to the
raise, with the raised error (if any). -/
noncomputable def finish_game (s : SysState) (result : GResult) :
    SysState × Option String :=
  let m0 := { s.m with status := MStatus.completed, result := some result }
  match s.m.mode, s.black_player, s.white_player with
  | Mode.online, some b, some w =>
    let m1 := { m0 with
      black_elo_before := some b.elo_rating
      white_elo_before := some w.elo_rating }
    let outcomes : SResult × SResult :=
      match result with
      | GResult.black_win => (SResult.win, SResult.loss)
      | GResult.white_win => (SResult.loss, SResult.win)
      | GResult.draw => (SResult.draw, SResult.draw)
    let bu := update_elo b w.elo_rating outcomes.1
    let wu := update_elo w bu.1.elo_rating outcomes.2
    let m2 := { m1 with
      black_elo_change := some bu.2
      white_elo_change := some wu.2 }
    ({ m := m2, black_player := some bu.1, white_player := some wu.1 },
      some typeErrorMsg)
  | Mode.ai, some _, _ =>
    ({ s with m := m0 }, some typeErrorMsg)
  | _, _, _ =>
    ({ s with m := m0 }, none)

/-- Modelled from the spec: `User.get_leaderboard_rank` is called by the
forfeit/disconnect paths but is not defined in the sources provided; per
the spec its value (`old_rank`/`new_rank` in the ELO-change payload) is
the position in the leaderboard, 1 = highest ELO.  It is a read-only
query: it mutates no state. -/
def get_leaderboard_rank (allUsers : List UserRec) (u : UserRec) : Nat :=
  (allUsers.filter (fun v => u.elo_rating < v.elo_rating)).length + 1

/-- `GameViewSet.forfeit`: identifies the requester among the two players
(403 otherwise), awards the win to the other side and calls
`finish_game` unconditionally — there is no check of the match status.
The old-rank reads before the call are read-only
(`get_leaderboard_rank`) and do not change the state. -/
noncomputable def forfeit (s : SysState) (requester : Nat) :
    SysState × Option String :=
  if s.black_player.map UserRec.uid = some requester then
    finish_game s GResult.white_win
  else if s.white_player.map UserRec.uid = some requester then
    finish_game s GResult.black_win
  else
    (s, some "You are not a player in this match")

/-- `GameConsumer.finish_game_on_disconnect`: finishes the match with the
given result only when the status is still `in_progress`; otherwise it
returns `None` without touching anything. -/
noncomputable def finish_game_on_disconnect (s : SysState) (result : GResult) :
    SysState × Option String :=
  if s.m.status = MStatus.in_progress then finish_game s result
  else (s, none)

/-! ### Matchmaking (`backend/matchmaking/matchmaker.py`)
Timestamps are modelled as whole seconds (`Nat`). -/

/-- Queue entry status (`MatchmakingQueue`). -/
inductive QStatus where
  | waiting | matched | expired
deriving DecidableEq, Repr

/-- A `MatchmakingQueue` row as read by `Matchmaker.find_opponent`. -/
structure QueueEntry where
  player_id : Nat
  elo_rating : Int
  joined_at : Nat
deriving DecidableEq, Repr

/-- The status field is kept beside the row so a list models the table. -/
structure QueueRow where
  entry : QueueEntry
  qstatus : QStatus
deriving DecidableEq, Repr

/-- Python `timedelta.seconds`: the seconds component of the elapsed time,
i.e. the total elapsed seconds with whole days discarded. -/
def timedelta_seconds (elapsed : Nat) : Nat := elapsed % 86400

/-- The range expansion in `find_opponent`:
`min((waiting_seconds // 10) * 10, 500)`. -/
def time_bonus (waiting_seconds : Nat) : Nat := min (waiting_seconds / 10 * 10) 500

/-- The effective search range when a queue entry is supplied: the base
range plus the time bonus computed from `(now - joined_at).seconds`. -/
def effective_range (base : Int) (elapsed : Nat) : Int :=
  base + (time_bonus (timedelta_seconds elapsed) : Int)

/-- The row filter of the `find_opponent` query: status `waiting`, rating
within `[player_elo - range, player_elo + range]`, not the querying
player. -/
def eligibleRow (player_id : Nat) (player_elo range : Int) (r : QueueRow) : Bool :=
  r.qstatus == QStatus.waiting &&
    decide (player_elo - range ≤ r.entry.elo_rating) &&
    decide (r.entry.elo_rating ≤ player_elo + range) &&
    !(r.entry.player_id == player_id)

/-- The first element carrying the minimum key — the shared semantics of
Django `order_by(key).first()` and Python `min(xs, key=...)`, both of
which resolve ties in favour of the earlier element. -/
def firstMinBy {α : Type} (key : α → Int) : List α → Option α
  | [] => none
  | a :: rest =>
    match firstMinBy key rest with
    | none => some a
    | some t => if key a ≤ key t then some a else some t

/-- `order_by('joined_at')` followed by `.first()`: the first row carrying
the minimum `joined_at` (earlier rows win ties). -/
def earliestRow (l : List QueueRow) : Option QueueRow :=
  firstMinBy (fun r => (r.entry.joined_at : Int)) l

/-- The query of `Matchmaker.find_opponent` once the effective range is
known: filter the table, order by join time ascending, take the first. -/
def find_opponent_scan (table : List QueueRow) (player_id : Nat)
    (player_elo range : Int) : Option QueueRow :=
  earliestRow (table.filter (eligibleRow player_id player_elo range))

/-- The search range used by one `find_opponent` call: the base range
(`elo_range` argument, defaulting to `settings.MATCHMAKING_ELO_RANGE =
100`) plus, when a queue entry is supplied, the waiting-time bonus. -/
def query_range (now : Nat) (queue_entry : Option QueueEntry)
    (elo_range : Option Int) : Int :=
  let base := elo_range.getD 100
  match queue_entry with
  | none => base
  | some e => effective_range base (now - e.joined_at)

/-- `Matchmaker.find_opponent(player, queue_entry, elo_range)`: computes
the effective range, then scans the waiting rows. -/
def find_opponent (table : List QueueRow) (player_id : Nat) (player_elo : Int)
    (now : Nat) (queue_entry : Option QueueEntry) (elo_range : Option Int) :
    Option QueueRow :=
  find_opponent_scan table player_id player_elo (query_range now queue_entry elo_range)

/-! ### Server pool (`backend/game/server_pool.py`) -/

/-- A registered game server as read by `get_best_server`; `healthy`
models the existence of the non-expired Redis health key consulted by
`get_all_servers(healthy_only=True)`. -/
structure ServerRec where
  server_id : Nat
  capacity : Int
  active_games : Int
  region : Nat
  healthy : Bool
deriving DecidableEq, Repr

/-- The capacity filter of `get_best_server`:
`capacity - active_games >= min_capacity`. -/
def serverAvailable (min_capacity : Int) (s : ServerRec) : Bool :=
  decide (min_capacity ≤ s.capacity - s.active_games)

/-- Python `min(available_servers, key=active_games)`: the first server
carrying the minimum active-game count (earlier servers win ties). -/
def leastLoaded (l : List ServerRec) : Option ServerRec :=
  firstMinBy ServerRec.active_games l

/-- `GameServerPool.get_best_server(region, min_capacity)`: restricts to
healthy servers (empty pool gives `None`), optionally filters by region,
keeps servers with enough free capacity (none gives `None`), and returns
the least-loaded survivor. -/
def get_best_server (servers : List ServerRec) (region : Option Nat)
    (min_capacity : Int) : Option ServerRec :=
  let healthy := servers.filter ServerRec.healthy
  if healthy.isEmpty then none
  else
    let regional :=
      match region with
      | none => healthy
      | some reg => healthy.filter (fun s => s.region == reg)
    let available := regional.filter (serverAvailable min_capacity)
    if available.isEmpty then none
    else leastLoaded available

/-! ### AI engine (`backend/ai/engine.py`)
The engine mutates the board in place only inside `_find_winning_move`
(hypothetical stone written then erased); the embedding threads the board
through exactly those writes and models every other helper as the pure
reader it is.  `random.choice` is modelled by an index parameter `k`;
float scores are modelled in `ℚ` (they are only compared, never stored). -/

namespace CaroAI

/-- `board[i][j]` at natural indices (engine loops stay in range). -/
def getCellN (b : Board) (i j : Nat) : Cell := (b.getD i []).getD j none

/-- The walking guard of the engine:
`0 <= r < len(board) and 0 <= c < len(board[0]) and board[r][c] == player`. -/
def cellE (b : Board) (r c : Int) (p : Player) : Bool :=
  decide (0 ≤ r) && decide (r < (b.length : Int)) && decide (0 ≤ c) &&
    decide (c < (((b.headD []).length : Nat) : Int)) && (cellAt b r c == some p)

/-- One whileloop of `CaroAI._check_win`: counts consecutive same-symbol
cells from `(r, c)` stepping by `(dr, dc)` (fuel = board size bounds the
walk, which always leaves the board within that many steps). -/
def countRun (b : Board) (p : Player) (r c dr dc : Int) : Nat → Nat
  | 0 => 0
  | fuel + 1 =>
    if cellE b r c p then countRun b p (r + dr) (c + dc) dr dc fuel + 1 else 0

/-- `CaroAI._check_win(board, row, col, player)`: true when some direction
pair accumulates a count of 5 starting from 1 for the played cell. -/
def check_win (b : Board) (row col : Int) (p : Player) : Bool :=
  let pairs : List ((Int × Int) × (Int × Int)) :=
    [((0, 1), (0, -1)), ((1, 0), (-1, 0)), ((1, 1), (-1, -1)), ((1, -1), (-1, 1))]
  pairs.any fun d =>
    5 ≤ 1 + countRun b p (row + d.1.1) (col + d.1.2) d.1.1 d.1.2 b.length
          + countRun b p (row + d.2.1) (col + d.2.2) d.2.1 d.2.2 b.length

/-- Row-major cell enumeration `for i in range(len(board)) for j in
range(len(board[0]))`. -/
def allCells (b : Board) : List (Nat × Nat) :=
  (List.range b.length).flatMap fun i =>
    (List.range (b.headD []).length).map fun j => (i, j)

/-- The loop body of `CaroAI._find_winning_move`, threading the in-place
board mutation: an empty cell is filled with `player`, tested with
`_check_win`, and restored to `None` either way. -/
def find_winning_move_go (p : Player) :
    Board → List (Nat × Nat) → Board × Option (Nat × Nat)
  | b, [] => (b, none)
  | b, (i, j) :: rest =>
    if getCellN b i j = none then
      let b1 := setCell b i j (some p)
      if check_win b1 i j p then (setCell b1 i j none, some (i, j))
      else find_winning_move_go p (setCell b1 i j none) rest
    else find_winning_move_go p b rest

/-- `CaroAI._find_winning_move(board, player)`: first cell whose
hypothetical stone wins, together with the board as left behind. -/
def find_winning_move (b : Board) (p : Player) : Board × Option (Nat × Nat) :=
  find_winning_move_go p b (allCells b)

/-- One direction walk of `CaroAI._score_line`: the number of consecutive
own-symbol cells, and whether the walk stopped on an in-board empty cell
(an open end). -/
def walk_line (b : Board) (p : Player) (r c dr dc : Int) : Nat → Nat × Bool
  | 0 => (0, false)
  | fuel + 1 =>
    if decide (0 ≤ r) && decide (r < (b.length : Int)) && decide (0 ≤ c) &&
        decide (c < (((b.headD []).length : Nat) : Int)) then
      match cellAt b r c with
      | some q =>
        if q = p then
          let w := walk_line b p (r + dr) (c + dc) dr dc fuel
          (w.1 + 1, w.2)
        else (0, false)
      | none => (0, true)
    else (0, false)

/-- `CaroAI._line_value(count, open_ends)`. -/
def line_value (count open_ends : Nat) : ℚ :=
  if open_ends = 0 then 0
  else if 5 ≤ count then 10000
  else if count = 4 then if open_ends = 2 then 5000 else 1200
  else if count = 3 then if open_ends = 2 then 400 else 120
  else if count = 2 then if open_ends = 2 then 80 else 30
  else if open_ends = 2 then 15 else 5

/-- The four direction pairs shared by the scoring helpers. -/
def dirPairs : List ((Int × Int) × (Int × Int)) :=
  [((0, 1), (0, -1)), ((1, 0), (-1, 0)), ((1, 1), (-1, -1)), ((1, -1), (-1, 1))]

/-- `CaroAI._score_line(board, row, col, player, dir_pair)`: both walks of
the pair feed one count (starting at 1 for the hypothetical stone) and
one open-end tally. -/
def score_line (b : Board) (row col : Int) (p : Player)
    (d : (Int × Int) × (Int × Int)) : ℚ :=
  let w1 := walk_line b p (row + d.1.1) (col + d.1.2) d.1.1 d.1.2 b.length
  let w2 := walk_line b p (row + d.2.1) (col + d.2.2) d.2.1 d.2.2 b.length
  line_value (1 + w1.1 + w2.1)
    ((if w1.2 then 1 else 0) + (if w2.2 then 1 else 0))

/-- `CaroAI._adjacent_bonus`: 8 points per in-board neighbour holding the
player's symbol. -/
def adjacent_bonus (b : Board) (row col : Int) (p : Player) : ℚ :=
  8 * ((([-1, 0, 1] : List Int).flatMap fun di =>
        ([-1, 0, 1] : List Int).map fun dj => (di, dj))
      |>.filter fun d =>
        !(d.1 == 0 && d.2 == 0) && cellE b (row + d.1) (col + d.2) p).length

/-- `CaroAI._evaluate_position`: own-line scores plus 0.8 × opponent-line
scores over the four axes, plus the clustering bonus. -/
def evaluate_position (b : Board) (row col : Int) (p q : Player) : ℚ :=
  (dirPairs.map fun d =>
    score_line b row col p d + (4 / 5) * score_line b row col q d).sum
    + adjacent_bonus b row col p

/-- The candidate generation of `CaroAI._find_strategic_move`: empty
in-board neighbours of occupied cells, in row-major generation order
(the source accumulates them in a Python `set`, whose iteration order is
unspecified; the embedding fixes first-insertion order). -/
def candidates (b : Board) : List (Nat × Nat) :=
  ((List.range b.length).flatMap fun i =>
    (List.range (b.headD []).length).flatMap fun j =>
      if (getCellN b i j).isSome then
        ([-1, 0, 1] : List Int).flatMap fun di =>
          ([-1, 0, 1] : List Int).flatMap fun dj =>
            if di == 0 && dj == 0 then []
            else
              let ni := (i : Int) + di
              let nj := (j : Int) + dj
              if decide (0 ≤ ni) && decide (ni < (b.length : Int)) &&
                  decide (0 ≤ nj) &&
                  decide (nj < (((b.headD []).length : Nat) : Int)) &&
                  (cellAt b ni nj == none) then
                [(ni.toNat, nj.toNat)]
              else []
      else []).dedup

/-- `CaroAI._find_strategic_move`: best-scoring candidate under a strict
improvement scan (the first maximal candidate wins); `None` when no
candidate exists. -/
def find_strategic_move (b : Board) (ai : Player) : Option (Nat × Nat) :=
  let opp := if ai = Player.X then Player.O else Player.X
  ((candidates b).foldl
    (fun best c =>
      let sc := evaluate_position b c.1 c.2 ai opp
      match best with
      | none => some (c, sc)
      | some (bc, bs) => if bs < sc then some (c, sc) else some (bc, bs))
    none).map Prod.fst

/-- The empty-cell enumeration of `CaroAI._get_random_move`. -/
def empty_cells (b : Board) : List (Nat × Nat) :=
  (List.range b.length).flatMap fun i =>
    (List.range (b.headD []).length).flatMap fun j =>
      if getCellN b i j = none then [(i, j)] else []

/-- `CaroAI._get_random_move`: `random.choice(empty_cells)` modelled by the
oracle index `k`; `(0, 0)` when the board is full. -/
def get_random_move (b : Board) (k : Nat) : Nat × Nat :=
  let es := empty_cells b
  if es.isEmpty then (0, 0) else es.getD (k % es.length) (0, 0)

/-- `CaroAI._get_smart_move`: winning move, else blocking move, else
strategic move, else random; the board is threaded through the two
`_find_winning_move` calls, which are the only writers. -/
def get_smart_move (b : Board) (ai : Player) (k : Nat) :
    Board × (Nat × Nat) :=
  match find_winning_move b ai with
  | (b1, some mv) => (b1, mv)
  | (b1, none) =>
    let opp := if ai = Player.X then Player.O else Player.X
    match find_winning_move b1 opp with
    | (b2, some mv) => (b2, mv)
    | (b2, none) =>
      match find_strategic_move b2 ai with
      | some mv => (b2, mv)
      | none => (b2, get_random_move b2 k)

/-- AI difficulty tiers. -/
inductive Difficulty where
  | easy | medium | hard
deriving DecidableEq, Repr

/-- `CaroAI.get_move(board, ai_player)`: easy is random, medium is smart,
hard is `_get_minimax_move`, which currently just calls the smart move. -/
def get_move (d : Difficulty) (b : Board) (ai : Player) (k : Nat) :
    Board × (Nat × Nat) :=
  match d with
  | Difficulty.easy => (b, get_random_move b k)
  | Difficulty.medium => get_smart_move b ai k
  | Difficulty.hard => get_smart_move b ai k

end CaroAI

/-! ### Specification predicates and concrete scenario states -/

/-- The combined eligibility of `get_best_server`: healthy, in the
requested region (when one is given), and enough free capacity. -/
def serverEligible (region : Option Nat) (min_capacity : Int)
    (s : ServerRec) : Bool :=
  s.healthy &&
    (match region with
     | none => true
     | some reg => s.region == reg) &&
    serverAvailable min_capacity s

/-- Specification side of claim C3, one axis: some contiguous window of
board cells holding `p`, lying along direction `(dr, dc)` and containing
`(row, col)`, has 5 or more cells.  `cellB b 15 _ _ p` states that a
coordinate is on the 15×15 board and holds `p`. -/
def axisHasFive (b : Board) (row col : Int) (p : Player) (dr dc : Int) : Prop :=
  ∃ a bk : Nat, 5 ≤ a + bk + 1 ∧
    ∀ i : Int, -(bk : Int) ≤ i → i ≤ (a : Int) →
      cellB b 15 (row + i * dr) (col + i * dc) p = true

/-- Specification side of claim C3: one of the four axes through the cell
carries 5 or more contiguous cells of `p` including the cell itself. -/
def hasFiveThrough (b : Board) (row col : Int) (p : Player) : Prop :=
  axisHasFive b row col p 0 1 ∨ axisHasFive b row col p 1 0 ∨
    axisHasFive b row col p 1 1 ∨ axisHasFive b row col p 1 (-1)

/-- The board of the C5 scenario after the move: `X` on (7,3)–(7,6) and the
move just played at (7,7). -/
def scenarioBoard : Board :=
  setCell (setCell (setCell (setCell (setCell emptyBoard
    7 3 (some Player.X)) 7 4 (some Player.X)) 7 5 (some Player.X))
    7 6 (some Player.X)) 7 7 (some Player.X)

/-- A session that is already completed and where it is `X`'s turn —
the C2 scenario input. -/
def wrongTurnState : MatchState :=
  { board := emptyBoard
    move_history := []
    current_turn := Player.X
    status := MStatus.completed }

/-- Black player record for the ELO scenarios: rating 1200. -/
def black0 : UserRec :=
  { uid := 1, elo_rating := 1200, wins := 3, losses := 2, draws := 1,
    current_streak := 2, best_streak := 4 }

/-- White player record for the ELO scenarios: rating 1200. -/
def white0 : UserRec :=
  { uid := 2, elo_rating := 1200, wins := 5, losses := 5, draws := 0,
    current_streak := 0, best_streak := 3 }

/-- An online match in progress between `black0` and `white0`. -/
def onlineEqual : SysState :=
  { m := { mode := Mode.online, status := MStatus.in_progress, result := none,
           black_elo_before := none, white_elo_before := none,
           black_elo_change := none, white_elo_change := none },
    black_player := some black0
    white_player := some white0 }

/-- The same online match, already completed — the C4 scenario input. -/
def completedOnline : SysState :=
  { m := { mode := Mode.online, status := MStatus.completed,
           result := some GResult.black_win,
           black_elo_before := none, white_elo_before := none,
           black_elo_change := none, white_elo_change := none },
    black_player := some black0
    white_player := some white0 }

/-- An AI-mode match in progress with human player `black0` — the C6
scenario input. -/
def aiMatch : SysState :=
  { m := { mode := Mode.ai, status := MStatus.in_progress, result := none,
           black_elo_before := none, white_elo_before := none,
           black_elo_change := none, white_elo_change := none },
    black_player := some black0
    white_player := none }

/-- A waiting queue row that joined at second 50 with rating 1250. -/
def qrowLate : QueueRow :=
  { entry := { player_id := 2, elo_rating := 1250, joined_at := 50 },
    qstatus := QStatus.waiting }

/-- A waiting queue row that joined at second 30 with rating 1150. -/
def qrowEarly : QueueRow :=
  { entry := { player_id := 3, elo_rating := 1150, joined_at := 30 },
    qstatus := QStatus.waiting }

/-- A two-row queue table used to instantiate the matchmaking theorem. -/
def qtable : List QueueRow := [qrowLate, qrowEarly]

/-- A healthy server with spare capacity and 50 active games. -/
def srvA : ServerRec :=
  { server_id := 1, capacity := 100, active_games := 50, region := 0,
    healthy := true }

/-- A healthy server with spare capacity and 40 active games. -/
def srvB : ServerRec :=
  { server_id := 2, capacity := 150, active_games := 40, region := 0,
    healthy := true }

/-- A two-server pool used to instantiate the server-selection theorem. -/
def srvPool : List ServerRec := [srvA, srvB]

/-! ## Theorems -/

/-! ### Generic list helpers -/

/-- Writing back the element already stored at an index changes nothing. -/
theorem set_self_getD {α : Type} (l : List α) (i : Nat) (d : α) :
    l.set i (l.getD i d) = l := by
  induction l generalizing i with
  | nil => rfl
  | cons a t ih =>
    cases i with
    | zero => rfl
    | succ n => simpa [List.set] using ih n

/-- Writing a value the index already holds (as seen through `getD`)
changes nothing. -/
theorem set_getD_of_eq {α : Type} (l : List α) (i : Nat) (d : α)
    (h : l.getD i d = d) : l.set i d = l := by
  have hself := set_self_getD l i d
  rw [h] at hself
  exact hself

/-- Reading back an in-range write through `getD`. -/
theorem getD_set_self {α : Type} (l : List α) (i : Nat) (x d : α)
    (h : i < l.length) : (l.set i x).getD i d = x := by
  induction l generalizing i with
  | nil => simp at h
  | cons a t ih =>
    cases i with
    | zero => rfl
    | succ n => simpa using ih n (by simpa using h)

/-- An out-of-range write changes nothing. -/
theorem set_of_length_le {α : Type} (l : List α) (i : Nat) (x : α)
    (h : l.length ≤ i) : l.set i x = l := by
  induction l generalizing i with
  | nil => rfl
  | cons a t ih =>
    cases i with
    | zero => simp at h
    | succ n => simpa [List.set] using ih n (by simpa using h)

/-- Two writes to the same board cell collapse to the second. -/
theorem setCell_setCell (b : Board) (i j : Nat) (v w : Cell) :
    setCell (setCell b i j v) i j w = setCell b i j w := by
  unfold setCell
  rw [List.set_set]
  by_cases h : i < b.length
  · rw [getD_set_self _ _ _ _ h, List.set_set]
  · rw [set_of_length_le b i _ (Nat.le_of_not_lt h),
        set_of_length_le b i _ (Nat.le_of_not_lt h)]

/-- Erasing an empty cell changes nothing. -/
theorem setCell_none_of_empty (b : Board) (i j : Nat)
    (h : (b.getD i []).getD j none = none) : setCell b i j none = b := by
  unfold setCell
  rw [set_getD_of_eq _ _ _ h]
  exact set_self_getD b i []

/-! ### Claim C10: the AI never changes the board it is given -/

/-- Restoring the hypothetical stone: writing `p` into an empty cell and
then erasing it returns the original board. -/
theorem setCell_write_erase (b : Board) (i j : Nat) (p : Player)
    (h : CaroAI.getCellN b i j = none) :
    setCell (setCell b i j (some p)) i j none = b := by
  rw [setCell_setCell]
  exact setCell_none_of_empty b i j h

/-- The `_find_winning_move` loop leaves the board exactly as it found
it: every hypothetical stone is erased before the loop moves on or
returns. -/
theorem find_winning_move_go_frame (p : Player) (cs : List (Nat × Nat)) :
    ∀ b : Board, (CaroAI.find_winning_move_go p b cs).1 = b := by
  induction cs with
  | nil => intro b; rfl
  | cons c rest ih =>
    intro b
    obtain ⟨i, j⟩ := c
    unfold CaroAI.find_winning_move_go
    by_cases h : CaroAI.getCellN b i j = none
    · rw [if_pos h]
      by_cases hw : CaroAI.check_win (setCell b i j (some p)) i j p
      · rw [if_pos hw]
        exact setCell_write_erase b i j p h
      · rw [if_neg hw, setCell_write_erase b i j p h]
        exact ih b
    · rw [if_neg h]
      exact ih b

/-- `_find_winning_move` preserves the board. -/
theorem find_winning_move_frame (b : Board) (p : Player) :
    (CaroAI.find_winning_move b p).1 = b :=
  find_winning_move_go_frame p (CaroAI.allCells b) b

/-- `_get_smart_move` preserves the board: the two `_find_winning_move`
scans restore it and every other helper only reads it. -/
theorem get_smart_move_frame (b : Board) (ai : Player) (k : Nat) :
    (CaroAI.get_smart_move b ai k).1 = b := by
  unfold CaroAI.get_smart_move
  have h1 := find_winning_move_frame b ai
  rcases hfw : CaroAI.find_winning_move b ai with ⟨b1, mv1⟩
  rw [hfw] at h1
  cases mv1 with
  | some mv => simpa using h1
  | none =>
    simp only
    have h2 := find_winning_move_frame b1 (if ai = Player.X then Player.O else Player.X)
    rcases hfw2 : CaroAI.find_winning_move b1 (if ai = Player.X then Player.O else Player.X)
      with ⟨b2, mv2⟩
    rw [hfw2] at h2
    cases mv2 with
    | some mv => simpa using h2.trans h1
    | none =>
      simp only
      cases CaroAI.find_strategic_move b2 ai <;> simpa using h2.trans h1

/-- C10: for every difficulty, board, symbol and random oracle,
`get_move` returns the board unchanged — the winning-move and
blocking-move searches always erase their hypothetical stone. -/
theorem C10_get_move_preserves_board (d : CaroAI.Difficulty) (b : Board)
    (ai : Player) (k : Nat) : (CaroAI.get_move d b ai k).1 = b := by
  cases d with
  | easy => rfl
  | medium => exact get_smart_move_frame b ai k
  | hard => exact get_smart_move_frame b ai k

/-! ### Claim C5: the shape of the returned winning line -/

/-- C5 counterexample: in the scenario (X on (7,3)–(7,6), X just played at
(7,7)) `check_winner` does not return the ascending list
[(7,3),(7,4),(7,5),(7,6),(7,7)] stated by the claim. -/
theorem C5_counterexample :
    check_winner scenarioBoard 7 7 Player.X ≠
      some [(7, 3), (7, 4), (7, 5), (7, 6), (7, 7)] := by
  decide

/-- C5 (amended): `check_winner` returns the cells of the winning run
with the just-played cell first, followed by the cells found walking the
first scan direction, then those of the opposite direction; in the
scenario the returned horizontal line is
[(7,7),(7,6),(7,5),(7,4),(7,3)]. -/
theorem C5_line_order :
    check_winner scenarioBoard 7 7 Player.X =
      some [(7, 7), (7, 6), (7, 5), (7, 4), (7, 3)] := by
  decide

/-! ### Claim C2: move acceptance -/

/-- C2 counterexample: on a session that is already `completed` and where
it is `X`'s turn, a move by `O` into an empty cell is accepted and
mutates the session — no status or turn check rejects it. -/
theorem C2_counterexample :
    wrongTurnState.status ≠ MStatus.in_progress ∧
    Player.O ≠ wrongTurnState.current_turn ∧
    make_move wrongTurnState 0 0 Player.O =
      Except.ok
        { board := setCell emptyBoard 0 0 (some Player.O)
          move_history := [⟨0, 0, Player.O⟩]
          current_turn := Player.X
          status := MStatus.completed } ∧
    setCell emptyBoard 0 0 (some Player.O) ≠ wrongTurnState.board := by
  refine ⟨by decide, by decide, rfl, by decide⟩

/-- C2 (amended): a move is accepted exactly when the target coordinates
are in range and the cell there is empty — the session status and the
current turn are not consulted.  An in-range occupied cell is rejected
with `ValueError("Cell already occupied")`, an out-of-range coordinate
is rejected with `IndexError` (the read raises before anything is
written), and every rejection leaves the state untouched; an accepted
move writes the cell, appends to the history, flips the turn and leaves
the status unchanged. -/
theorem C2_accept_iff_cell_empty (m : MatchState) (row col : Nat) (p : Player) :
    ((∃ m2, make_move m row col p = Except.ok m2) ↔
      (row < m.board.length ∧ col < (m.board.getD row []).length ∧
        (m.board.getD row []).getD col none = none)) ∧
    (row < m.board.length → col < (m.board.getD row []).length →
      (m.board.getD row []).getD col none ≠ none →
      make_move m row col p = Except.error "Cell already occupied") ∧
    (¬(row < m.board.length ∧ col < (m.board.getD row []).length) →
      make_move m row col p = Except.error "list index out of range") ∧
    ∀ m2, make_move m row col p = Except.ok m2 →
      m2.status = m.status ∧
      m2.board = setCell m.board row col (some p) ∧
      m2.move_history = m.move_history ++ [⟨row, col, p⟩] ∧
      m2.current_turn = (if p = Player.X then Player.O else Player.X) := by
  unfold make_move
  by_cases hr : row < m.board.length
  · by_cases hc : col < (m.board.getD row []).length
    · rw [if_pos hr, if_pos hc]
      rcases h : (m.board.getD row []).getD col none with _ | v
      · simp only [Option.isSome_none, Bool.false_eq_true, if_false]
        refine ⟨⟨fun _ => ⟨hr, hc, by trivial⟩, fun _ => ⟨_, rfl⟩⟩,
          fun _ _ hne => absurd (by trivial) hne,
          fun hno => absurd ⟨hr, hc⟩ hno, ?_⟩
        intro m2 hm2
        cases hm2
        exact ⟨rfl, rfl, rfl, rfl⟩
      · simp only [Option.isSome_some, if_true]
        refine ⟨⟨?_, ?_⟩, fun _ _ _ => by trivial,
          fun hno => absurd ⟨hr, hc⟩ hno, by intro m2 hm2; cases hm2⟩
        · rintro ⟨m2, hm2⟩
          cases hm2
        · rintro ⟨_, _, hnone⟩
          cases hnone
    · rw [if_pos hr, if_neg hc]
      refine ⟨⟨?_, ?_⟩, fun _ hcc => absurd hcc hc, fun _ => rfl,
        by intro m2 hm2; cases hm2⟩
      · rintro ⟨m2, hm2⟩
        cases hm2
      · rintro ⟨_, hcc, _⟩
        exact absurd hcc hc
  · rw [if_neg hr]
    refine ⟨⟨?_, ?_⟩, fun hrr => absurd hrr hr, fun _ => rfl,
      by intro m2 hm2; cases hm2⟩
    · rintro ⟨m2, hm2⟩
      cases hm2
    · rintro ⟨hrr, _, _⟩
      exact absurd hrr hr

/-- C2 witness: the amended theorem applied to the concrete
wrong-turn/completed session shows the move is accepted there. -/
theorem C2_accept_iff_cell_empty_witness :
    ∃ m2, make_move wrongTurnState 0 0 Player.O = Except.ok m2 :=
  (C2_accept_iff_cell_empty wrongTurnState 0 0 Player.O).1.mpr (by decide)

/-! ### Claim C8: matchmaking range expansion -/

/-- C8 counterexample: the code reads `timedelta.seconds`, which discards
whole days, so after exactly one day of waiting the effective range drops
back to the base range — it differs from the claimed
`base + min(floor(s/10)*10, 500)` formula and is not monotone in the
time waited. -/
theorem C8_counterexample :
    effective_range 100 86400 ≠ 100 + ((min (86400 / 10 * 10) 500 : Nat) : Int) ∧
    effective_range 100 86400 < effective_range 100 500 := by
  refine ⟨by decide, by decide⟩

/-- C8 (amended): the effective range equals
`base + min(floor((s mod 86400)/10)*10, 500)`; it is monotone
non-decreasing and matches the claimed formula for waits below one day,
and it never exceeds `base + 500` for any wait. -/
theorem C8_range_formula (base : Int) (s t u : Nat)
    (hst : s ≤ t) (ht : t < 86400) :
    effective_range base s ≤ effective_range base t ∧
    effective_range base t = base + ((min (t / 10 * 10) 500 : Nat) : Int) ∧
    effective_range base u ≤ base + 500 := by
  unfold effective_range time_bonus timedelta_seconds
  have hs : s % 86400 = s := Nat.mod_eq_of_lt (lt_of_le_of_lt hst ht)
  have ht2 : t % 86400 = t := Nat.mod_eq_of_lt ht
  rw [hs, ht2]
  refine ⟨?_, rfl, ?_⟩
  · have hdiv : s / 10 ≤ t / 10 := Nat.div_le_div_right hst
    have hmin : min (s / 10 * 10) 500 ≤ min (t / 10 * 10) 500 :=
      min_le_min (Nat.mul_le_mul_right 10 hdiv) le_rfl
    exact add_le_add_left (Int.ofNat_le.mpr hmin) base
  · have hmin : min (u % 86400 / 10 * 10) 500 ≤ 500 := min_le_right _ _
    exact add_le_add_left (Int.ofNat_le.mpr hmin) base

/-- C8 witness: the amended theorem at a concrete pair of waits. -/
theorem C8_range_formula_witness :
    effective_range 100 95 ≤ effective_range 100 130 ∧
    effective_range 100 130 = 100 + ((min (130 / 10 * 10) 500 : Nat) : Int) ∧
    effective_range 100 1000000 ≤ 100 + 500 :=
  C8_range_formula 100 95 130 1000000 (by decide) (by decide)

/-! ### Claim C6: AI-mode stats update -/

/-- C6: finishing an AI-mode match raises `TypeError` — `finish_game`
passes an `update_streak` keyword that `User.update_stats` does not
accept — so the human player's win/loss/draw counters are never
updated. -/
theorem C6_ai_finish_raises :
    (finish_game aiMatch GResult.black_win).2 = some typeErrorMsg ∧
    (finish_game aiMatch GResult.black_win).1.black_player = some black0 := by
  refine ⟨rfl, rfl⟩

/-! ### First-minimum scans (shared by claims C7 and C9) -/

/-- A first-minimum scan of a non-empty list returns a value. -/
theorem firstMinBy_cons_ne_none {α : Type} (key : α → Int) (a : α)
    (rest : List α) : firstMinBy key (a :: rest) ≠ none := by
  simp only [firstMinBy]
  cases he : firstMinBy key rest with
  | none => simp
  | some t =>
    dsimp only
    split <;> simp

/-- A first-minimum scan returns `none` exactly on the empty list. -/
theorem firstMinBy_eq_none_iff {α : Type} (key : α → Int) (l : List α) :
    firstMinBy key l = none ↔ l = [] := by
  cases l with
  | nil => simp [firstMinBy]
  | cons a rest => simp [firstMinBy_cons_ne_none key a rest]

/-- A first-minimum scan returns an element of the list. -/
theorem firstMinBy_mem {α : Type} (key : α → Int) (l : List α) (r : α)
    (h : firstMinBy key l = some r) : r ∈ l := by
  induction l generalizing r with
  | nil => cases h
  | cons a rest ih =>
    simp only [firstMinBy] at h
    cases he : firstMinBy key rest with
    | none =>
      simp only [he] at h
      cases h
      exact List.mem_cons_self a rest
    | some t =>
      simp only [he] at h
      by_cases hle : key a ≤ key t
      · rw [if_pos hle] at h
        cases h
        exact List.mem_cons_self a rest
      · rw [if_neg hle] at h
        cases h
        exact List.mem_cons_of_mem a (ih r he)

/-- A first-minimum scan returns an element with minimal key. -/
theorem firstMinBy_min {α : Type} (key : α → Int) (l : List α) (r : α)
    (h : firstMinBy key l = some r) : ∀ t ∈ l, key r ≤ key t := by
  induction l generalizing r with
  | nil => cases h
  | cons a rest ih =>
    intro t ht
    simp only [firstMinBy] at h
    cases he : firstMinBy key rest with
    | none =>
      simp only [he] at h
      have hnil : rest = [] := (firstMinBy_eq_none_iff key rest).mp he
      subst hnil
      cases h
      rcases List.mem_cons.mp ht with rfl | hf
      · exact le_rfl
      · cases hf
    | some u =>
      simp only [he] at h
      rcases List.mem_cons.mp ht with heq | htr
      · rw [heq]
        by_cases hle : key a ≤ key u
        · rw [if_pos hle] at h
          cases h
          exact le_rfl
        · rw [if_neg hle] at h
          cases h
          exact le_of_lt (lt_of_not_le hle)
      · by_cases hle : key a ≤ key u
        · rw [if_pos hle] at h
          cases h
          exact le_trans hle (ih u he t htr)
        · rw [if_neg hle] at h
          cases h
          exact ih r he t htr

/-! ### Claim C7: opponent search scans by join time, oldest first -/

/-- C7: `find_opponent` returns `None` exactly when no waiting row other
than the querying player has a rating inside the effective window, and
otherwise returns an eligible row whose join time is minimal among all
eligible rows (the first such row, i.e. oldest joiner first). -/
theorem C7_find_opponent_oldest_eligible (table : List QueueRow) (pid : Nat)
    (pelo : Int) (now : Nat) (qe : Option QueueEntry) (er : Option Int) :
    (find_opponent table pid pelo now qe er = none ↔
      ∀ r ∈ table, eligibleRow pid pelo (query_range now qe er) r = false) ∧
    ∀ r, find_opponent table pid pelo now qe er = some r →
      r ∈ table ∧ eligibleRow pid pelo (query_range now qe er) r = true ∧
      ∀ t ∈ table, eligibleRow pid pelo (query_range now qe er) t = true →
        r.entry.joined_at ≤ t.entry.joined_at := by
  unfold find_opponent find_opponent_scan earliestRow
  constructor
  · rw [firstMinBy_eq_none_iff, List.filter_eq_nil_iff]
    simp
  · intro r hr
    have hmem := firstMinBy_mem _ _ _ hr
    have hmin := firstMinBy_min _ _ _ hr
    have hrt := List.mem_filter.mp hmem
    refine ⟨hrt.1, hrt.2, ?_⟩
    intro t ht helig
    have htf : t ∈ table.filter
        (eligibleRow pid pelo (query_range now qe er)) :=
      List.mem_filter.mpr ⟨ht, helig⟩
    exact_mod_cast hmin t htf

/-- C7 witness: on a two-row table where the later joiner is listed
first, the theorem yields the older eligible row. -/
theorem C7_find_opponent_witness :
    qrowEarly ∈ qtable ∧
    eligibleRow 1 1200 (query_range 0 none none) qrowEarly = true ∧
    ∀ t ∈ qtable, eligibleRow 1 1200 (query_range 0 none none) t = true →
      qrowEarly.entry.joined_at ≤ t.entry.joined_at :=
  (C7_find_opponent_oldest_eligible qtable 1 1200 0 none none).2 qrowEarly
    (by decide)

/-! ### Claim C9: least-loaded server selection -/

/-- C9: `get_best_server` returns `None` exactly when no healthy server
(in the requested region, when one is given) has
`capacity - active_games ≥ min_capacity`, and otherwise returns an
eligible server whose active-game count is minimal among all eligible
servers. -/
theorem C9_best_server_least_loaded (servers : List ServerRec)
    (region : Option Nat) (min_capacity : Int) :
    (get_best_server servers region min_capacity = none ↔
      ∀ s ∈ servers, serverEligible region min_capacity s = false) ∧
    ∀ b, get_best_server servers region min_capacity = some b →
      b ∈ servers ∧ serverEligible region min_capacity b = true ∧
      ∀ s ∈ servers, serverEligible region min_capacity s = true →
        b.active_games ≤ s.active_games := by
  have hmem : ∀ x : ServerRec,
      x ∈ (match region with
            | none => servers.filter ServerRec.healthy
            | some reg => (servers.filter ServerRec.healthy).filter
                (fun s => s.region == reg)).filter
          (serverAvailable min_capacity) ↔
        x ∈ servers ∧ serverEligible region min_capacity x = true := by
    intro x
    cases region <;>
        simp [List.mem_filter, serverEligible, Bool.and_assoc, and_assoc] <;>
      tauto
  have hform : get_best_server servers region min_capacity =
      (if ((match region with
            | none => servers.filter ServerRec.healthy
            | some reg => (servers.filter ServerRec.healthy).filter
                (fun s => s.region == reg)).filter
          (serverAvailable min_capacity)).isEmpty then none
       else leastLoaded ((match region with
            | none => servers.filter ServerRec.healthy
            | some reg => (servers.filter ServerRec.healthy).filter
                (fun s => s.region == reg)).filter
          (serverAvailable min_capacity))) := by
    unfold get_best_server
    by_cases hE : (servers.filter ServerRec.healthy).isEmpty
    · have hnil : servers.filter ServerRec.healthy = [] :=
        List.isEmpty_iff.mp hE
      cases region <;> simp [hE, hnil]
    · simp [hE]
  rw [hform]
  set avail := (match region with
      | none => servers.filter ServerRec.healthy
      | some reg => (servers.filter ServerRec.healthy).filter
          (fun s => s.region == reg)).filter
    (serverAvailable min_capacity) with hav
  constructor
  · by_cases hE : avail.isEmpty
    · have hnil : avail = [] := List.isEmpty_iff.mp hE
      simp only [hE, if_true, true_iff]
      intro s hs
      by_contra hne
      have : s ∈ avail := (hmem s).mpr ⟨hs, by simpa using hne⟩
      rw [hnil] at this
      cases this
    · have hne : avail ≠ [] := fun h => hE (by simp [h])
      simp only [hE, if_false]
      unfold leastLoaded
      constructor
      · intro hnone
        exact absurd ((firstMinBy_eq_none_iff _ _).mp hnone) hne
      · intro hall
        rcases List.exists_mem_of_ne_nil avail hne with ⟨x, hx⟩
        have := (hmem x).mp hx
        rw [hall x this.1] at this
        cases this.2
  · intro b hb
    by_cases hE : avail.isEmpty
    · rw [if_pos hE] at hb
      cases hb
    · rw [if_neg hE] at hb
      unfold leastLoaded at hb
      have hbmem := (hmem b).mp (firstMinBy_mem _ _ _ hb)
      refine ⟨hbmem.1, hbmem.2, ?_⟩
      intro s hs helig
      exact firstMinBy_min _ _ _ hb s ((hmem s).mpr ⟨hs, helig⟩)

/-- C9 witness: on a two-server pool with active counts 50 and 40, the
theorem yields the server with 40 active games as minimal. -/
theorem C9_best_server_witness :
    srvB ∈ srvPool ∧ serverEligible none 1 srvB = true ∧
    ∀ s ∈ srvPool, serverEligible none 1 s = true →
      srvB.active_games ≤ s.active_games :=
  (C9_best_server_least_loaded srvPool none 1).2 srvB (by decide)

/-! ### ELO arithmetic (claims C1 and C4)
Concrete values of `elo_delta` needed by the finishing-path theorems.
`10 ** (16/400) = 10 ** (1/25)` is irrational; the two bounds below pin
it between 1 and 17/15, which pins `32 / (1 + 10^(1/25))` strictly
between 15 and 16. -/

/-- Truncating an integer-valued real gives the integer back. -/
theorem pyInt_intCast (n : Int) : pyInt (n : ℝ) = n := by
  unfold pyInt
  split <;> simp

/-- Lower bound for `10^(1/25)`. -/
theorem ten_rpow_gt_one : 1 < (10 : ℝ) ^ ((1 : ℝ) / 25) := by
  rw [Real.one_lt_rpow_iff_of_pos (by norm_num : (0 : ℝ) < 10)]
  norm_num

/-- The 25th power of `10^(1/25)` is 10. -/
theorem ten_rpow_pow : ((10 : ℝ) ^ ((1 : ℝ) / 25)) ^ (25 : ℕ) = 10 := by
  rw [← Real.rpow_natCast ((10 : ℝ) ^ ((1 : ℝ) / 25)) 25,
      ← Real.rpow_mul (by norm_num : (0 : ℝ) ≤ 10)]
  norm_num

/-- Upper bound for `10^(1/25)`: `(17/15)^25 > 10`. -/
theorem ten_rpow_lt : (10 : ℝ) ^ ((1 : ℝ) / 25) < 17 / 15 := by
  by_contra hcon
  push_neg at hcon
  have h1 : ((17 : ℝ) / 15) ^ (25 : ℕ) ≤ ((10 : ℝ) ^ ((1 : ℝ) / 25)) ^ (25 : ℕ) :=
    pow_le_pow_left₀ (by norm_num) hcon 25
  rw [ten_rpow_pow] at h1
  norm_num at h1

/-- Equal ratings give expected score 1/2. -/
theorem expected_score_self (e : Int) : expected_score e e = 1 / 2 := by
  unfold expected_score
  rw [sub_self]
  norm_num [Real.rpow_zero]

/-- A win against an equal-rated opponent is worth exactly +16. -/
theorem elo_delta_self_win (e : Int) : elo_delta e e SResult.win = 16 := by
  unfold elo_delta
  rw [expected_score_self]
  have h : (32 : ℝ) * (actual_score SResult.win - 1 / 2) = ((16 : Int) : ℝ) := by
    unfold actual_score
    norm_num
  rw [h, pyInt_intCast]

/-- A loss against an equal-rated opponent is worth exactly −16. -/
theorem elo_delta_self_loss (e : Int) : elo_delta e e SResult.loss = -16 := by
  unfold elo_delta
  rw [expected_score_self]
  have h : (32 : ℝ) * (actual_score SResult.loss - 1 / 2) = ((-16 : Int) : ℝ) := by
    unfold actual_score
    norm_num
  rw [h, pyInt_intCast]

/-- A loss against an opponent rated 16 points higher is worth −15:
`int(32 * (0 - 1/(1+10^(1/25))))` truncates `-15.26…` toward zero. -/
theorem elo_delta_loss_up16 (e : Int) : elo_delta e (e + 16) SResult.loss = -15 := by
  unfold elo_delta
  have hexp : expected_score e (e + 16) =
      1 / (1 + (10 : ℝ) ^ ((1 : ℝ) / 25)) := by
    unfold expected_score
    have h1 : ((e + 16 - e : Int) : ℝ) / 400 = (1 : ℝ) / 25 := by
      push_cast
      ring
    rw [h1]
  rw [hexp]
  set t : ℝ := (10 : ℝ) ^ ((1 : ℝ) / 25) with ht
  have h1t : 1 < t := ten_rpow_gt_one
  have h2t : t < 17 / 15 := ten_rpow_lt
  have hpos : (0 : ℝ) < 1 + t := by linarith
  have hval : (32 : ℝ) * (actual_score SResult.loss - 1 / (1 + t)) =
      -(32 / (1 + t)) := by
    unfold actual_score
    field_simp
  rw [hval]
  have hlo : (15 : ℝ) < 32 / (1 + t) := by
    rw [lt_div_iff₀ hpos]
    linarith
  have hhi : 32 / (1 + t) < 16 := by
    rw [div_lt_iff₀ hpos]
    linarith
  unfold pyInt
  rw [if_neg (by linarith)]
  rw [Int.ceil_eq_iff]
  constructor
  · push_cast
    linarith
  · push_cast
    linarith

/-! ### Claim C1: the rating deltas and the pre-match snapshot -/

/-- C1: finishing an online black-win between two 1200-rated players
stores −15 as white's delta, because white's `update_elo` call receives
black's rating *after* black's update (1216); the delta computed from
the pre-match snapshot (1200, as the claim states) is −16.  The outcome
therefore depends on the order of the two `update_elo` calls, and the
stored `black_elo_before`/`white_elo_before` snapshots are not the
values used. -/
theorem C1_second_delta_not_snapshot :
    (finish_game onlineEqual GResult.black_win).1.m.white_elo_change =
      some (-15) ∧
    elo_delta white0.elo_rating black0.elo_rating SResult.loss = -16 ∧
    (finish_game onlineEqual GResult.black_win).1.white_player.map
      UserRec.elo_rating = some 1185 := by
  have h15 : elo_delta 1200 1216 SResult.loss = -15 := by
    have h := elo_delta_loss_up16 1200
    norm_num at h
    exact h
  have h16 : elo_delta 1200 1200 SResult.win = 16 := elo_delta_self_win 1200
  have hs16 : elo_delta 1200 1200 SResult.loss = -16 := elo_delta_self_loss 1200
  refine ⟨?_, ?_, ?_⟩
  · simp only [finish_game, onlineEqual, update_elo, black0, white0]
    norm_num [h16, h15]
  · simpa [black0, white0] using hs16
  · simp only [finish_game, onlineEqual, update_elo, black0, white0]
    norm_num [h16, h15]

/-! ### Claim C4: finishing side effects and the status guard -/

/-- C4 counterexample: forfeiting a match that is already `completed`
performs the rating side effects again — `forfeit` calls `finish_game`
with no status check, so black's saved rating drops from 1200 to 1184 on
a session that had already been finished. -/
theorem C4_counterexample_forfeit_completed :
    completedOnline.m.status = MStatus.completed ∧
    (forfeit completedOnline 1).1.black_player.map UserRec.elo_rating =
      some 1184 := by
  have hs16 : elo_delta 1200 1200 SResult.loss = -16 := elo_delta_self_loss 1200
  refine ⟨rfl, ?_⟩
  have hid : completedOnline.black_player.map UserRec.uid = some 1 := rfl
  simp only [forfeit, hid, if_pos]
  simp only [finish_game, completedOnline, update_elo, black0, white0]
  norm_num [hs16]

/-- C4 (amended): only the disconnect-triggered finish path checks the
status guard — `finish_game_on_disconnect` on a session that is not
`in_progress` performs no side effects at all and returns the state
unchanged; the forfeit path (see the counterexample) finishes
unconditionally. -/
theorem C4_disconnect_guard (s : SysState) (result : GResult)
    (h : s.m.status ≠ MStatus.in_progress) :
    finish_game_on_disconnect s result = (s, none) := by
  unfold finish_game_on_disconnect
  rw [if_neg h]

/-- C4 witness: the disconnect guard applied to the completed match. -/
theorem C4_disconnect_guard_witness :
    completedOnline.m.status ≠ MStatus.in_progress ∧
    finish_game_on_disconnect completedOnline GResult.black_win =
      (completedOnline, none) :=
  ⟨by decide, C4_disconnect_guard completedOnline GResult.black_win (by decide)⟩

/-! ### Claim C3: win detection is correct
The two directions of the correspondence between the walking loops and
the existence of a contiguous run: every coordinate the walk collects
satisfies the guard (soundness), and the walk collects at least as many
cells as any guard-satisfying prefix (completeness). -/

/-- Every position collected by the walk satisfies the guard: the `k`-th
collected coordinate is `(r + k·dr, c + k·dc)` and holds `p`. -/
theorem collectDir_sound (b : Board) (p : Player) (size dr dc : Int) :
    ∀ (fuel : Nat) (r c : Int) (k : Nat),
      k < (collectDir b p size r c dr dc fuel).length →
      cellB b size (r + k * dr) (c + k * dc) p = true := by
  intro fuel
  induction fuel with
  | zero =>
    intro r c k h
    simp [collectDir] at h
  | succ n ih =>
    intro r c k h
    by_cases hc : cellB b size r c p
    · simp only [collectDir, if_pos hc, List.length_cons] at h
      cases k with
      | zero => simpa using hc
      | succ j =>
        have hj : j < (collectDir b p size (r + dr) (c + dc) dr dc n).length := by
          omega
        have hcell := ih (r + dr) (c + dc) j hj
        have e1 : r + dr + (j : Int) * dr = r + ((j + 1 : Nat) : Int) * dr := by
          push_cast
          ring
        have e2 : c + dc + (j : Int) * dc = c + ((j + 1 : Nat) : Int) * dc := by
          push_cast
          ring
        rw [e1, e2] at hcell
        exact hcell
    · simp only [collectDir, if_neg hc, List.length_nil] at h
      omega

/-- If the first `n` positions along the walk all satisfy the guard and
the fuel covers them, the walk collects at least `n` cells. -/
theorem collectDir_complete (b : Board) (p : Player) (size dr dc : Int) :
    ∀ (fuel : Nat) (r c : Int) (n : Nat), n ≤ fuel →
      (∀ k : Nat, k < n → cellB b size (r + k * dr) (c + k * dc) p = true) →
      n ≤ (collectDir b p size r c dr dc fuel).length := by
  intro fuel
  induction fuel with
  | zero =>
    intro r c n hn _
    omega
  | succ m ih =>
    intro r c n hn hall
    cases n with
    | zero => exact Nat.zero_le _
    | succ j =>
      have hc : cellB b size r c p = true := by
        have h0 := hall 0 (Nat.succ_pos j)
        simpa using h0
      simp only [collectDir, if_pos hc, List.length_cons]
      have hrec : j ≤ (collectDir b p size (r + dr) (c + dc) dr dc m).length := by
        apply ih
        · omega
        · intro k hk
          have hcell := hall (k + 1) (by omega)
          have e1 : r + ((k + 1 : Nat) : Int) * dr = r + dr + (k : Int) * dr := by
            push_cast
            ring
          have e2 : c + ((k + 1 : Nat) : Int) * dc = c + dc + (k : Int) * dc := by
            push_cast
            ring
          rw [e1, e2] at hcell
          exact hcell
      omega

/-- Guard truth forces the coordinate inside the board. -/
theorem cellB_bounds (b : Board) (size r c : Int) (p : Player)
    (h : cellB b size r c p = true) :
    0 ≤ r ∧ r < size ∧ 0 ≤ c ∧ c < size := by
  simp only [cellB, Bool.and_eq_true, decide_eq_true_eq] at h
  refine ⟨?_, ?_, ?_, ?_⟩ <;> tauto

/-- Two in-board positions `a` unit steps apart along a non-zero unit
direction are at most 14 steps apart on a 15-wide board. -/
theorem step_bound (row col : Int) (a : Nat) (dr dc : Int)
    (hdr : -1 ≤ dr ∧ dr ≤ 1) (hdc : -1 ≤ dc ∧ dc ≤ 1)
    (hnz : ¬(dr = 0 ∧ dc = 0))
    (h0 : 0 ≤ row ∧ row < 15 ∧ 0 ≤ col ∧ col < 15)
    (ha : 0 ≤ row + (a : Int) * dr ∧ row + (a : Int) * dr < 15 ∧
          0 ≤ col + (a : Int) * dc ∧ col + (a : Int) * dc < 15) :
    a ≤ 14 := by
  have hdr3 : dr = -1 ∨ dr = 0 ∨ dr = 1 := by omega
  have hdc3 : dc = -1 ∨ dc = 0 ∨ dc = 1 := by omega
  rcases hdr3 with rfl | rfl | rfl <;> rcases hdc3 with rfl | rfl | rfl <;>
    simp only [mul_neg_one, mul_zero, mul_one, add_zero] at ha <;> omega

/-- One axis of `check_winner` on a 15×15 board: the accumulated line
reaches length 5 exactly when a contiguous run of 5 or more cells of `p`
along that axis passes through the played cell. -/
theorem lineThrough_iff_axis (b : Board) (p : Player) (row col dr dc : Int)
    (hlen : b.length = 15)
    (hdr : -1 ≤ dr ∧ dr ≤ 1) (hdc : -1 ≤ dc ∧ dc ≤ 1)
    (hnz : ¬(dr = 0 ∧ dc = 0))
    (hocc : cellB b 15 row col p = true) :
    5 ≤ (lineThrough b row col p dr dc).length ↔
      axisHasFive b row col p dr dc := by
  have hmain : (5 ≤ (lineThrough b row col p dr dc).length) ↔
      5 ≤ 1 + ((collectDir b p 15 (row + dr) (col + dc) dr dc 15).length +
        (collectDir b p 15 (row - dr) (col - dc) (-dr) (-dc) 15).length) := by
    simp only [lineThrough, hlen, Nat.cast_ofNat, List.length_cons,
      List.length_append]
    omega
  rw [hmain]
  unfold axisHasFive
  constructor
  · intro h
    refine ⟨(collectDir b p 15 (row + dr) (col + dc) dr dc 15).length,
            (collectDir b p 15 (row - dr) (col - dc) (-dr) (-dc) 15).length,
            by omega, ?_⟩
    intro i hlb hub
    rcases lt_trichotomy i 0 with hneg | heq | hpos
    · have hk : (((-i - 1).toNat : Nat) : Int) = -i - 1 :=
        Int.toNat_of_nonneg (by omega)
      have hklt : (-i - 1).toNat <
          (collectDir b p 15 (row - dr) (col - dc) (-dr) (-dc) 15).length := by
        omega
      have hcell := collectDir_sound b p 15 (-dr) (-dc) 15
        (row - dr) (col - dc) ((-i - 1).toNat) hklt
      rw [hk] at hcell
      have e1 : row - dr + (-i - 1) * -dr = row + i * dr := by ring
      have e2 : col - dc + (-i - 1) * -dc = col + i * dc := by ring
      rw [e1, e2] at hcell
      exact hcell
    · rw [heq]
      simpa using hocc
    · have hk : (((i - 1).toNat : Nat) : Int) = i - 1 :=
        Int.toNat_of_nonneg (by omega)
      have hklt : (i - 1).toNat <
          (collectDir b p 15 (row + dr) (col + dc) dr dc 15).length := by
        omega
      have hcell := collectDir_sound b p 15 dr dc 15
        (row + dr) (col + dc) ((i - 1).toNat) hklt
      rw [hk] at hcell
      have e1 : row + dr + (i - 1) * dr = row + i * dr := by ring
      have e2 : col + dc + (i - 1) * dc = col + i * dc := by ring
      rw [e1, e2] at hcell
      exact hcell
  · rintro ⟨a, bk, hsum, hcells⟩
    have hcenter := cellB_bounds b 15 row col p hocc
    have ha14 : a ≤ 14 := by
      rcases Nat.eq_zero_or_pos a with h0 | hpos
      · omega
      · have hcell := hcells (a : Int) (by omega) le_rfl
        have hb := cellB_bounds b 15 _ _ p hcell
        exact step_bound row col a dr dc hdr hdc hnz hcenter hb
    have hbk14 : bk ≤ 14 := by
      rcases Nat.eq_zero_or_pos bk with h0 | hpos
      · omega
      · have hcell := hcells (-(bk : Int)) le_rfl (by omega)
        have hb := cellB_bounds b 15 _ _ p hcell
        have e1 : row + -(bk : Int) * dr = row + (bk : Int) * -dr := by ring
        have e2 : col + -(bk : Int) * dc = col + (bk : Int) * -dc := by ring
        rw [e1, e2] at hb
        exact step_bound row col bk (-dr) (-dc) (by omega) (by omega)
          (by omega) hcenter hb
    have hf : a ≤ (collectDir b p 15 (row + dr) (col + dc) dr dc 15).length := by
      apply collectDir_complete
      · omega
      · intro k hk
        have hcell := hcells ((k : Int) + 1) (by omega) (by omega)
        have e1 : row + ((k : Int) + 1) * dr = row + dr + (k : Int) * dr := by
          ring
        have e2 : col + ((k : Int) + 1) * dc = col + dc + (k : Int) * dc := by
          ring
        rw [e1, e2] at hcell
        exact hcell
    have hbwd : bk ≤
        (collectDir b p 15 (row - dr) (col - dc) (-dr) (-dc) 15).length := by
      apply collectDir_complete
      · omega
      · intro k hk
        have hcell := hcells (-((k : Int) + 1)) (by omega) (by omega)
        have e1 : row + -((k : Int) + 1) * dr = row - dr + (k : Int) * -dr := by
          ring
        have e2 : col + -((k : Int) + 1) * dc = col - dc + (k : Int) * -dc := by
          ring
        rw [e1, e2] at hcell
        exact hcell
    omega

/-- C3: on a 15×15 board, for a cell occupied by `p`, `check_winner`
returns a non-empty coordinate list exactly when one of the four axes
through the cell carries a contiguous run of 5 or more cells of `p`
including the cell; otherwise it returns `None`. -/
theorem C3_check_winner_iff_run (b : Board) (row col : Int) (p : Player)
    (hlen : b.length = 15) (_hrows : ∀ r ∈ b, r.length = 15)
    (hocc : cellB b 15 row col p = true) :
    (∃ l, check_winner b row col p = some l ∧ l ≠ []) ↔
      hasFiveThrough b row col p := by
  have h01 := lineThrough_iff_axis b p row col 0 1 hlen
    (by omega) (by omega) (by omega) hocc
  have h10 := lineThrough_iff_axis b p row col 1 0 hlen
    (by omega) (by omega) (by omega) hocc
  have h11 := lineThrough_iff_axis b p row col 1 1 hlen
    (by omega) (by omega) (by omega) hocc
  have h1m := lineThrough_iff_axis b p row col 1 (-1) hlen
    (by omega) (by omega) (by omega) hocc
  have hne : ∀ d1 d2 : Int, lineThrough b row col p d1 d2 ≠ [] := by
    intro d1 d2
    simp [lineThrough]
  unfold check_winner hasFiveThrough
  split_ifs with c1 c2 c3 c4
  · constructor
    · intro _
      exact Or.inl (h01.mp c1)
    · intro _
      exact ⟨_, rfl, hne 0 1⟩
  · constructor
    · intro _
      exact Or.inr (Or.inl (h10.mp c2))
    · intro _
      exact ⟨_, rfl, hne 1 0⟩
  · constructor
    · intro _
      exact Or.inr (Or.inr (Or.inl (h11.mp c3)))
    · intro _
      exact ⟨_, rfl, hne 1 1⟩
  · constructor
    · intro _
      exact Or.inr (Or.inr (Or.inr (h1m.mp c4)))
    · intro _
      exact ⟨_, rfl, hne 1 (-1)⟩
  · constructor
    · rintro ⟨l, hl, _⟩
      cases hl
    · rintro (hax | hax | hax | hax)
      · exact absurd (h01.mpr hax) c1
      · exact absurd (h10.mpr hax) c2
      · exact absurd (h11.mpr hax) c3
      · exact absurd (h1m.mpr hax) c4

/-- C3 witness: the equivalence instantiated on the concrete scenario
board with its hypotheses discharged by evaluation. -/
theorem C3_check_winner_iff_run_witness :
    scenarioBoard.length = 15 ∧
    cellB scenarioBoard 15 7 7 Player.X = true ∧
    ((∃ l, check_winner scenarioBoard 7 7 Player.X = some l ∧ l ≠ []) ↔
      hasFiveThrough scenarioBoard 7 7 Player.X) :=
  ⟨by decide, by decide,
    C3_check_winner_iff_run scenarioBoard 7 7 Player.X (by decide) (by decide)
      (by decide)⟩

end Caroud
